import Mathlib

/-!
Shallow embedding of the Snake game logic of `hello.py` (class `SnakeGame`).
Only the game-state logic is modelled: the Tkinter canvas, timers and drawing
calls do not touch the game state beyond scheduling `step`, so the state
machine below is `reset`, `step` (one tick), and `process_direction`
(arrow-key handling).  `random.choice` is modelled by an arbitrary function
that picks some element of a nonempty list.
-/

set_option autoImplicit false
set_option maxRecDepth 40000

namespace Snake

/-- `GRID_WIDTH` in `hello.py`. -/
def GRID_WIDTH : Nat := 20

/-- `GRID_HEIGHT` in `hello.py`. -/
def GRID_HEIGHT : Nat := 20

/-- A grid cell: a pair of integer coordinates (`Point` in `hello.py`). -/
abbrev Point := Int × Int

/-- `wrap_point`: toroidal coordinate reduction modulo the grid dimensions.
Lean's `Int.emod` agrees with Python's `%` for a positive modulus. -/
def wrap_point (cell : Point) : Point :=
  (cell.1 % (GRID_WIDTH : Int), cell.2 % (GRID_HEIGHT : Int))

/-- `iter_grid`: all grid cells, x-major, as the Python generator yields them. -/
def iter_grid : List Point :=
  (List.range GRID_WIDTH).flatMap fun x =>
    (List.range GRID_HEIGHT).map fun y => (Int.ofNat x, Int.ofNat y)

/-- A cell lies within the grid bounds. -/
def InBounds (p : Point) : Prop :=
  0 ≤ p.1 ∧ p.1 < (GRID_WIDTH : Int) ∧ 0 ≤ p.2 ∧ p.2 < (GRID_HEIGHT : Int)

instance : DecidablePred InBounds := fun p => by
  unfold InBounds; infer_instance

/-- Model of `random.choice`: any function that picks a member of every
nonempty list.  Quantifying over `Choice` covers every run of the RNG. -/
structure Choice where
  pick : List Point → Point
  pick_mem : ∀ l, l ≠ [] → pick l ∈ l

/-- The fields of `SnakeGame` that the game logic reads and writes.  The snake
deque is a list, head first (`appendleft` = cons, `pop` = drop last). -/
structure GameState where
  snake : List Point
  direction : Point
  pending_direction : Point
  food : Option Point
  score : Nat
  game_over : Bool
deriving DecidableEq

/-- The `empty_cells` set computed inside `spawn_food`: grid cells not
occupied by the snake. -/
def empty_cells (snake : List Point) : List Point :=
  iter_grid.filter fun p => decide (p ∉ snake)

/-- `spawn_food`: food becomes `none` when the grid is full, otherwise some
empty cell chosen by the RNG. -/
def spawn_food (c : Choice) (snake : List Point) : Option Point :=
  if empty_cells snake = [] then none
  else some (c.pick (empty_cells snake))

/-- The wrapped next head cell computed at the start of `step`, after the
pending direction has been copied into `direction`. -/
def next_head (s : GameState) : Point :=
  let head := s.snake.headD (0, 0)
  wrap_point (head.1 + s.pending_direction.1, head.2 + s.pending_direction.2)

/-- `step`: one game tick.  Mirrors `SnakeGame.step`: return unchanged when
the game is over; apply the pending direction; compute the wrapped next head
cell; on self-collision set `game_over`; otherwise grow the head and either
consume the food (score up, respawn) or drop the tail; finally set
`game_over` when no food could be placed (win). -/
def step (c : Choice) (s : GameState) : GameState :=
  if s.game_over then s
  else
    let next_cell := next_head s
    if next_cell ∈ s.snake then
      { s with direction := s.pending_direction, game_over := true }
    else
      let s1 :=
        if s.food = some next_cell then
          { s with direction := s.pending_direction,
                   snake := next_cell :: s.snake,
                   score := s.score + 1,
                   food := spawn_food c (next_cell :: s.snake) }
        else
          { s with direction := s.pending_direction,
                   snake := (next_cell :: s.snake).dropLast }
      if s1.food = none then { s1 with game_over := true } else s1

/-- The four arrow keys accepted by `on_key_press`. -/
inductive Keysym
  | up
  | down
  | left
  | right
deriving DecidableEq

/-- The `directions` table in `process_direction`. -/
def dirOf : Keysym → Point
  | .up => (0, -1)
  | .down => (0, 1)
  | .left => (-1, 0)
  | .right => (1, 0)

/-- `process_direction`: record a pending direction, ignoring an exact
reversal of the current (applied) direction when the snake has length > 1. -/
def process_direction (s : GameState) (k : Keysym) : GameState :=
  if s.snake ≠ [] ∧ 1 < s.snake.length then
    if dirOf k = (-s.direction.1, -s.direction.2) then s
    else { s with pending_direction := dirOf k }
  else { s with pending_direction := dirOf k }

/-- The `center` cell computed in `reset` (integer division). -/
def center : Point := ((GRID_WIDTH : Int) / 2, (GRID_HEIGHT : Int) / 2)

/-- The initial snake built in `reset`: head at the center, two cells to its
left. -/
def init_snake : List Point :=
  [center, (center.1 - 1, center.2), (center.1 - 2, center.2)]

/-- `reset`: the state after re-initialisation (timer bookkeeping and drawing
do not touch the game state). -/
def resetState (c : Choice) : GameState :=
  { snake := init_snake
    direction := (1, 0)
    pending_direction := (1, 0)
    food := spawn_food c init_snake
    score := 0
    game_over := false }

/-- Reachable game states: a reset (from anywhere, with any RNG history),
followed by any interleaving of ticks and key presses, each tick with its own
RNG draw. -/
inductive Reachable : GameState → Prop
  | ofReset (c : Choice) : Reachable (resetState c)
  | ofStep (c : Choice) {s : GameState} : Reachable s → Reachable (step c s)
  | ofKey {s : GameState} (k : Keysym) : Reachable s → Reachable (process_direction s k)

/-- The state invariant: the snake has at least two (in fact three) cells,
its cells are pairwise distinct and in bounds, present food never lies on the
snake, and food is absent only when the snake covers the whole grid. -/
def Inv (s : GameState) : Prop :=
  2 ≤ s.snake.length ∧
  s.snake.Nodup ∧
  (∀ p ∈ s.snake, InBounds p) ∧
  (∀ f, s.food = some f → f ∉ s.snake) ∧
  (s.food = none → ∀ p, InBounds p → p ∈ s.snake)

/-- A concrete RNG: always pick the first empty cell. -/
def headChoice : Choice where
  pick l := l.headD (0, 0)
  pick_mem l h := by
    cases l with
    | nil => exact absurd rfl h
    | cons a t => exact List.mem_cons_self a t

/-- A concrete RNG that places the food at (11, 10) whenever that cell is
free, i.e. directly in front of the freshly reset snake. -/
def evilChoice : Choice where
  pick l := if (11, 10) ∈ l then (11, 10) else l.headD (0, 0)
  pick_mem l h := by
    dsimp only
    split
    · assumption
    · cases l with
      | nil => exact absurd rfl h
      | cons a t => exact List.mem_cons_self a t

/-- A state one tick away from a self-collision: the snake curls so that the
next head cell (1, 0) is already a body cell. -/
def stateA : GameState :=
  { snake := [(0, 0), (1, 0), (1, 1)]
    direction := (1, 0)
    pending_direction := (1, 0)
    food := some (5, 5)
    score := 0
    game_over := false }

/-- A state whose next head cell equals the snake's current tail cell. -/
def stateB : GameState :=
  { snake := [(0, 0), (0, 1), (1, 1), (1, 0)]
    direction := (1, 0)
    pending_direction := (1, 0)
    food := some (5, 5)
    score := 2
    game_over := false }

/-- A terminal (game over) state. -/
def stateC : GameState :=
  { snake := [(0, 0), (1, 0)]
    direction := (1, 0)
    pending_direction := (1, 0)
    food := some (5, 5)
    score := 2
    game_over := true }

/-! ### Basic lemmas about the grid, wrapping and food spawning -/

theorem wrap_point_inBounds (p : Point) : InBounds (wrap_point p) := by
  refine ⟨Int.emod_nonneg _ (by norm_num [GRID_WIDTH]),
    Int.emod_lt_of_pos _ (by norm_num [GRID_WIDTH]),
    Int.emod_nonneg _ (by norm_num [GRID_HEIGHT]),
    Int.emod_lt_of_pos _ (by norm_num [GRID_HEIGHT])⟩

theorem next_head_inBounds (s : GameState) : InBounds (next_head s) :=
  wrap_point_inBounds _

set_option maxRecDepth 10000 in
theorem iter_grid_all_inBounds : ∀ p ∈ iter_grid, InBounds p := by decide

theorem mem_iter_grid (p : Point) : p ∈ iter_grid ↔ InBounds p := by
  obtain ⟨x, y⟩ := p
  constructor
  · exact fun h => iter_grid_all_inBounds _ h
  · intro h
    obtain ⟨hx0, hxw, hy0, hyh⟩ := h
    unfold GRID_WIDTH at hxw
    unfold GRID_HEIGHT at hyh
    have hx : x.toNat ∈ List.range GRID_WIDTH := by
      rw [List.mem_range]; unfold GRID_WIDTH; omega
    have hy : y.toNat ∈ List.range GRID_HEIGHT := by
      rw [List.mem_range]; unfold GRID_HEIGHT; omega
    have hpair : ((x.toNat : Int), (y.toNat : Int)) = ((x, y) : Point) := by
      rw [Prod.mk.injEq]
      exact ⟨Int.toNat_of_nonneg hx0, Int.toNat_of_nonneg hy0⟩
    refine List.mem_flatMap.mpr ⟨x.toNat, hx, ?_⟩
    refine List.mem_map.mpr ⟨y.toNat, hy, ?_⟩
    exact hpair

theorem mem_empty_cells {snake : List Point} {p : Point} :
    p ∈ empty_cells snake ↔ InBounds p ∧ p ∉ snake := by
  simp [empty_cells, List.mem_filter, mem_iter_grid]

theorem spawn_food_some {c : Choice} {snake : List Point} {f : Point}
    (h : spawn_food c snake = some f) : InBounds f ∧ f ∉ snake := by
  unfold spawn_food at h
  split at h
  · exact absurd h (by simp)
  · rename_i hne
    obtain rfl : c.pick (empty_cells snake) = f := by injection h
    exact mem_empty_cells.mp (c.pick_mem _ hne)

theorem spawn_food_none {c : Choice} {snake : List Point}
    (h : spawn_food c snake = none) : ∀ p, InBounds p → p ∈ snake := by
  unfold spawn_food at h
  split at h
  · rename_i hemp
    intro p hp
    by_contra hmem
    have : p ∈ empty_cells snake := mem_empty_cells.mpr ⟨hp, hmem⟩
    rw [hemp] at this
    exact absurd this (List.not_mem_nil p)
  · exact absurd h (by simp)

theorem spawn_food_isSome {c : Choice} {snake : List Point}
    (h : empty_cells snake ≠ []) : spawn_food c snake = some (c.pick (empty_cells snake)) := by
  unfold spawn_food
  simp [h]

/-! ### Branch lemmas for `step` -/

theorem step_of_game_over (c : Choice) (s : GameState) (h : s.game_over = true) :
    step c s = s := by
  unfold step
  simp [h]

theorem step_of_collision (c : Choice) (s : GameState) (h : s.game_over = false)
    (hc : next_head s ∈ s.snake) :
    step c s = { s with direction := s.pending_direction, game_over := true } := by
  unfold step
  simp [h, hc]

theorem step_of_eat (c : Choice) (s : GameState) (h : s.game_over = false)
    (hc : next_head s ∉ s.snake) (he : s.food = some (next_head s)) :
    step c s = { s with
                 direction := s.pending_direction,
                 snake := next_head s :: s.snake,
                 score := s.score + 1,
                 food := spawn_food c (next_head s :: s.snake),
                 game_over := (spawn_food c (next_head s :: s.snake)).isNone } := by
  unfold step
  simp only [h, Bool.false_eq_true, if_false, hc, ite_false, ite_true, he,
    Option.some.injEq, if_pos rfl, if_neg hc]
  split
  · rename_i hsp
    simp [hsp]
  · rename_i hsp
    have hno : (spawn_food c (next_head s :: s.snake)).isNone = false := by
      rcases hx : spawn_food c (next_head s :: s.snake) with _ | f
      · exact absurd hx hsp
      · rfl
    simp [hno]

theorem step_of_move (c : Choice) (s : GameState) (h : s.game_over = false)
    (hc : next_head s ∉ s.snake) (he : s.food ≠ some (next_head s)) :
    step c s = { s with
                 direction := s.pending_direction,
                 snake := (next_head s :: s.snake).dropLast,
                 game_over := s.food.isNone } := by
  unfold step
  rcases hfo : s.food with _ | f
  · simp [h, hc, hfo]
  · rw [hfo] at he
    have he2 : ¬ f = next_head s := fun hf => he (by rw [hf])
    simp [h, hc, hfo, he2]

theorem process_direction_snake (s : GameState) (k : Keysym) :
    (process_direction s k).snake = s.snake ∧
    (process_direction s k).food = s.food ∧
    (process_direction s k).direction = s.direction ∧
    (process_direction s k).score = s.score ∧
    (process_direction s k).game_over = s.game_over := by
  unfold process_direction
  split
  · split <;> simp
  · simp

/-! ### Preservation of the invariant -/

theorem inv_process_direction (s : GameState) (k : Keysym) (h : Inv s) :
    Inv (process_direction s k) := by
  obtain ⟨hsn, hfo, -, -, hgo⟩ := process_direction_snake s k
  obtain ⟨h1, h2, h3, h4, h5⟩ := h
  refine ⟨?_, ?_, ?_, ?_, ?_⟩ <;> rw [hsn] <;> try rw [hfo]
  · exact h1
  · exact h2
  · exact h3
  · exact h4
  · exact h5

theorem inv_reset (c : Choice) : Inv (resetState c) := by
  refine ⟨?_, ?_, ?_, ?_, ?_⟩
  · show 2 ≤ init_snake.length
    decide
  · show init_snake.Nodup
    decide
  · show ∀ p ∈ init_snake, InBounds p
    decide
  · intro f hf
    have hf2 : spawn_food c init_snake = some f := hf
    exact (spawn_food_some hf2).2
  · intro hn p hp
    have hn2 : spawn_food c init_snake = none := hn
    exact spawn_food_none hn2 p hp

theorem inv_step (c : Choice) (s : GameState) (h : Inv s) : Inv (step c s) := by
  obtain ⟨hlen, hnd, hbd, hfood, hnone⟩ := h
  by_cases hgo : s.game_over = true
  · rw [step_of_game_over c s hgo]
    exact ⟨hlen, hnd, hbd, hfood, hnone⟩
  · replace hgo : s.game_over = false := by
      cases hb : s.game_over
      · rfl
      · exact absurd hb hgo
    by_cases hc : next_head s ∈ s.snake
    · rw [step_of_collision c s hgo hc]
      exact ⟨hlen, hnd, hbd, hfood, hnone⟩
    · by_cases he : s.food = some (next_head s)
      · rw [step_of_eat c s hgo hc he]
        refine ⟨?_, ?_, ?_, ?_, ?_⟩
        · show 2 ≤ (next_head s :: s.snake).length
          rw [List.length_cons]
          omega
        · exact List.nodup_cons.mpr ⟨hc, hnd⟩
        · intro p hp
          rcases List.mem_cons.mp hp with hp | hp
          · exact hp ▸ next_head_inBounds s
          · exact hbd p hp
        · intro f hf
          have hf2 : spawn_food c (next_head s :: s.snake) = some f := hf
          exact (spawn_food_some hf2).2
        · intro hn p hp
          have hn2 : spawn_food c (next_head s :: s.snake) = none := hn
          exact spawn_food_none hn2 p hp
      · rw [step_of_move c s hgo hc he]
        refine ⟨?_, ?_, ?_, ?_, ?_⟩
        · show 2 ≤ (next_head s :: s.snake).dropLast.length
          rw [List.length_dropLast, List.length_cons]
          omega
        · exact (List.dropLast_sublist _).nodup (List.nodup_cons.mpr ⟨hc, hnd⟩)
        · intro p hp
          rcases List.mem_cons.mp ((List.dropLast_sublist _).subset hp) with hp | hp
          · exact hp ▸ next_head_inBounds s
          · exact hbd p hp
        · intro f hf
          have hf2 : s.food = some f := hf
          intro hmem
          rcases List.mem_cons.mp ((List.dropLast_sublist _).subset hmem) with hm | hm
          · exact he (hm ▸ hf2)
          · exact hfood f hf2 hm
        · intro hn
          have hn2 : s.food = none := hn
          exact absurd (hnone hn2 _ (next_head_inBounds s)) hc

theorem reachable_inv {s : GameState} (h : Reachable s) : Inv s := by
  induction h with
  | ofReset c => exact inv_reset c
  | ofStep c _ ih => exact inv_step c _ ih
  | ofKey k _ ih => exact inv_process_direction _ k ih

theorem mem_of_getLast_eq {l : List Point} {a : Point} (h : l.getLast? = some a) :
    a ∈ l := by
  induction l with
  | nil => exact absurd h (by simp)
  | cons b t ih =>
    cases t with
    | nil =>
      have hba : b = a := by
        rw [List.getLast?_singleton] at h
        exact Option.some.inj h
      exact hba ▸ List.mem_cons_self b []
    | cons b2 t2 =>
      rw [List.getLast?_cons_cons] at h
      exact List.mem_cons_of_mem b (ih h)

/-! ### The claims -/

/-- Claim C1: for every non-terminal game state, one tick leaves the snake
length unchanged when the next head cell is not the food cell (including the
collision case, which ends the game), and increases it by exactly 1 when the
food is eaten. -/
theorem tick_length_cases (c : Choice) (s : GameState) (h : s.game_over = false) :
    (next_head s ∈ s.snake → (step c s).snake.length = s.snake.length) ∧
    (next_head s ∉ s.snake → s.food ≠ some (next_head s) →
      (step c s).snake.length = s.snake.length) ∧
    (next_head s ∉ s.snake → s.food = some (next_head s) →
      (step c s).snake.length = s.snake.length + 1) := by
  refine ⟨?_, ?_, ?_⟩
  · intro hc
    rw [step_of_collision c s h hc]
  · intro hc he
    rw [step_of_move c s h hc he]
    show (next_head s :: s.snake).dropLast.length = s.snake.length
    rw [List.length_dropLast, List.length_cons]
    omega
  · intro hc he
    rw [step_of_eat c s h hc he]
    show (next_head s :: s.snake).length = s.snake.length + 1
    rw [List.length_cons]

theorem tick_length_cases_check :
    (resetState headChoice).game_over = false ∧
    (step headChoice (resetState headChoice)).snake.length =
      (resetState headChoice).snake.length :=
  ⟨rfl, (tick_length_cases headChoice (resetState headChoice) rfl).2.1
    (by decide) (by decide)⟩

/-- Claim C2: for every non-terminal state whose wrapped next head cell lies
in the snake body, the tick sets the game-over flag and leaves the snake,
score and food unchanged. -/
theorem tick_collision_freezes (c : Choice) (s : GameState) (h : s.game_over = false)
    (hc : next_head s ∈ s.snake) :
    (step c s).game_over = true ∧ (step c s).snake = s.snake ∧
    (step c s).score = s.score ∧ (step c s).food = s.food := by
  rw [step_of_collision c s h hc]
  exact ⟨rfl, rfl, rfl, rfl⟩

theorem tick_collision_freezes_check :
    (step headChoice stateA).game_over = true ∧
    (step headChoice stateA).snake = stateA.snake ∧
    (step headChoice stateA).score = stateA.score ∧
    (step headChoice stateA).food = stateA.food :=
  tick_collision_freezes headChoice stateA rfl (by decide)

/-- Claim C3: in every reachable state, present food never lies on the snake,
and food is absent only when the snake occupies every in-bounds grid cell.
Reachability closes the states under reset, tick and direction input. -/
theorem food_disjoint_invariant (s : GameState) (h : Reachable s) :
    (∀ f, s.food = some f → f ∉ s.snake) ∧
    (s.food = none → ∀ p, InBounds p → p ∈ s.snake) := by
  obtain ⟨-, -, -, h4, h5⟩ := reachable_inv h
  exact ⟨h4, h5⟩

theorem food_disjoint_invariant_check :
    (resetState headChoice).food = some (0, 0) ∧
    ((0, 0) : Point) ∉ (resetState headChoice).snake :=
  ⟨by decide,
   (food_disjoint_invariant _ (Reachable.ofReset headChoice)).1 (0, 0) (by decide)⟩

/-- Claim C4: in every reachable state, a key whose direction is the exact
opposite of the current (applied) direction leaves the pending direction
unchanged, and any other key is recorded as the pending direction. -/
theorem no_reversal (s : GameState) (h : Reachable s) (k : Keysym) :
    (dirOf k = (-s.direction.1, -s.direction.2) →
      (process_direction s k).pending_direction = s.pending_direction) ∧
    (dirOf k ≠ (-s.direction.1, -s.direction.2) →
      (process_direction s k).pending_direction = dirOf k) := by
  obtain ⟨hlen, -, -, -, -⟩ := reachable_inv h
  have hne : s.snake ≠ [] := by
    intro hnil
    rw [hnil] at hlen
    simp at hlen
  have hlt : 1 < s.snake.length := by omega
  constructor
  · intro hop
    unfold process_direction
    rw [if_pos ⟨hne, hlt⟩, if_pos hop]
  · intro hop
    unfold process_direction
    rw [if_pos ⟨hne, hlt⟩, if_neg hop]

theorem no_reversal_check :
    (process_direction (resetState headChoice) Keysym.left).pending_direction =
      (resetState headChoice).pending_direction ∧
    (process_direction (resetState headChoice) Keysym.up).pending_direction = (0, -1) :=
  ⟨(no_reversal _ (Reachable.ofReset headChoice) Keysym.left).1 (by decide),
   (no_reversal _ (Reachable.ofReset headChoice) Keysym.up).2 (by decide)⟩

/-- Claim C5: in every reachable state every snake cell is within grid
bounds, the wrapped next head cell is in bounds, and wrapping any integer
point lands in bounds. -/
theorem snake_in_bounds (s : GameState) (h : Reachable s) (q : Point) :
    (∀ p ∈ s.snake, InBounds p) ∧ InBounds (next_head s) ∧ InBounds (wrap_point q) := by
  obtain ⟨-, -, h3, -, -⟩ := reachable_inv h
  exact ⟨h3, next_head_inBounds s, wrap_point_inBounds q⟩

theorem snake_in_bounds_check :
    InBounds ((10, 10) : Point) ∧ InBounds (wrap_point (-3, 45)) :=
  ⟨(snake_in_bounds _ (Reachable.ofReset headChoice) (-3, 45)).1 (10, 10) (by decide),
   (snake_in_bounds _ (Reachable.ofReset headChoice) (-3, 45)).2.2⟩

/-- Claim C6 counterexample: with an RNG that spawns the food at (11, 10),
the cell directly in front of the freshly reset snake, the first tick eats
the food: the head moves one cell right but no tail cell is removed, and the
length becomes 4, not 3. -/
theorem reset_tick_can_grow :
    (resetState evilChoice).food = some (11, 10) ∧
    (step evilChoice (resetState evilChoice)).snake =
      [(11, 10), (10, 10), (9, 10), (8, 10)] ∧
    (step evilChoice (resetState evilChoice)).snake.length = 4 :=
  ⟨by decide, by decide, by decide⟩

/-- Claim C6 (amended): starting from a freshly reset game whose food did not
spawn at the cell immediately to the right of the head, one tick with no
direction change moves the head one cell right and removes one tail cell, so
the length stays 3. -/
theorem reset_tick_moves_right (c : Choice)
    (h : (resetState c).food ≠ some (11, 10)) :
    (step c (resetState c)).snake = [(11, 10), (10, 10), (9, 10)] ∧
    (step c (resetState c)).snake.length = 3 := by
  have hnh : next_head (resetState c) = (11, 10) := rfl
  have hgo : (resetState c).game_over = false := rfl
  have hcol : next_head (resetState c) ∉ (resetState c).snake := by
    rw [hnh]
    show ((11, 10) : Point) ∉ init_snake
    decide
  have he : (resetState c).food ≠ some (next_head (resetState c)) := by
    rw [hnh]
    exact h
  constructor
  · rw [step_of_move c (resetState c) hgo hcol he]
    show (next_head (resetState c) :: (resetState c).snake).dropLast =
      [(11, 10), (10, 10), (9, 10)]
    rw [hnh]
    show ((11, 10) :: init_snake).dropLast = [(11, 10), (10, 10), (9, 10)]
    decide
  · rw [step_of_move c (resetState c) hgo hcol he]
    show (next_head (resetState c) :: (resetState c).snake).dropLast.length = 3
    rw [hnh]
    show ((11, 10) :: init_snake).dropLast.length = 3
    decide

theorem reset_tick_moves_right_check :
    (resetState headChoice).food ≠ some (11, 10) ∧
    (step headChoice (resetState headChoice)).snake = [(11, 10), (10, 10), (9, 10)] :=
  ⟨by decide, (reset_tick_moves_right headChoice (by decide)).1⟩

/-- Claim C7: once the game-over flag is set, a tick leaves the entire state
unchanged, and key presses never clear the flag; only a reset yields a
non-terminal state. -/
theorem terminal_absorbing (c : Choice) (s : GameState) (h : s.game_over = true) :
    step c s = s ∧ ∀ k, (process_direction s k).game_over = true := by
  refine ⟨step_of_game_over c s h, fun k => ?_⟩
  obtain ⟨-, -, -, -, hgo⟩ := process_direction_snake s k
  rw [hgo, h]

theorem terminal_absorbing_check :
    step headChoice stateC = stateC ∧
    (process_direction stateC Keysym.up).game_over = true :=
  ⟨(terminal_absorbing headChoice stateC rfl).1,
   (terminal_absorbing headChoice stateC rfl).2 Keysym.up⟩

/-- Claim C8: after reset the snake is the 3-cell row with head at the grid
center (10, 10) and the two body cells to its left, both directions are
(1, 0), the score is 0, the game-over flag is false, and food is present. -/
theorem reset_spec (c : Choice) :
    (resetState c).snake = [center, (center.1 - 1, center.2), (center.1 - 2, center.2)] ∧
    center = (10, 10) ∧
    (resetState c).direction = (1, 0) ∧
    (resetState c).pending_direction = (1, 0) ∧
    (resetState c).score = 0 ∧
    (resetState c).game_over = false ∧
    ∃ f, (resetState c).food = some f := by
  refine ⟨rfl, by decide, rfl, rfl, rfl, rfl, ?_⟩
  have hne : empty_cells init_snake ≠ [] := by decide
  refine ⟨c.pick (empty_cells init_snake), ?_⟩
  show spawn_food c init_snake = some (c.pick (empty_cells init_snake))
  exact spawn_food_isSome hne

theorem reset_spec_check :
    (resetState headChoice).snake =
      [center, (center.1 - 1, center.2), (center.1 - 2, center.2)] ∧
    (resetState headChoice).score = 0 ∧
    ∃ f, (resetState headChoice).food = some f :=
  ⟨(reset_spec headChoice).1, (reset_spec headChoice).2.2.2.2.1,
   (reset_spec headChoice).2.2.2.2.2.2⟩

/-- Claim C9: in every reachable state the snake cells are pairwise distinct;
reachability closes the states under reset, tick and direction input. -/
theorem snake_nodup_invariant (s : GameState) (h : Reachable s) : s.snake.Nodup :=
  (reachable_inv h).2.1

theorem snake_nodup_invariant_check : (resetState headChoice).snake.Nodup :=
  snake_nodup_invariant _ (Reachable.ofReset headChoice)

/-- Claim C10: for every non-terminal state whose wrapped next head cell
equals the current tail cell (and which is not eating), the tick ends the
game and the snake does not move, because the collision check runs before the
tail is removed. -/
theorem tail_chase_game_over (c : Choice) (s : GameState) (h : s.game_over = false)
    (ht : s.snake.getLast? = some (next_head s))
    (he : s.food ≠ some (next_head s)) :
    (step c s).game_over = true ∧ (step c s).snake = s.snake := by
  have hc : next_head s ∈ s.snake := mem_of_getLast_eq ht
  rw [step_of_collision c s h hc]
  exact ⟨rfl, rfl⟩

theorem tail_chase_game_over_check :
    (step headChoice stateB).game_over = true ∧
    (step headChoice stateB).snake = stateB.snake :=
  tail_chase_game_over headChoice stateB rfl (by decide) (by decide)

end Snake
